import Mathlib

/-!
Verification of the `pytoolbox` file-monitor library.

The development shallowly embeds the code of
`src/pytoolbox/filemonitor/filemonitor.py` and `src/filemonitor/os_utils.py`:

* Python/JSON values stored in the metadata cache are modelled by `JsonVal`
  (the JSON fragment the cache can contain: objects, strings, integers and
  literals; JSON arrays and floats never occur in a cache written by the
  program and are not modelled — content using them is treated as
  unparseable).
* Python `dict` objects are modelled as association lists in insertion
  order with unique keys (`dict_get`, `dict_set`, `dict_pop`).
* The filesystem seen by `os.path.isfile`/`os.stat` is a function
  `String → FileStatus`; `os.stat` raising `OSError` is the `statError`
  status.
* `json.dumps`/`json.loads` are modelled character-exactly for the
  fragment above (`jsonDumps`, `jsonLoads`), including the default
  `ensure_ascii` escaping and the `", "`/`": "` separators.
* Exceptions escaping a function are modelled with `Except`.
-/

/-- JSON values, as produced by `json.loads` on a cache file (fragment:
no arrays, no floats; see module comment). Objects keep Python-`dict`
insertion order. -/
inductive JsonVal where
  | jnull : JsonVal
  | jbool : Bool → JsonVal
  | jint : Int → JsonVal
  | jstr : String → JsonVal
  | jobj : List (String × JsonVal) → JsonVal

/-- Python `k in d.keys()`. -/
def dict_contains (d : List (String × JsonVal)) (k : String) : Bool :=
  d.any (fun kv => kv.1 = k)

/-- Python `d[k]` (first matching key; keys are unique by construction). -/
def dict_get (d : List (String × JsonVal)) (k : String) : Option JsonVal :=
  match d with
  | [] => none
  | kv :: rest => if kv.1 = k then some kv.2 else dict_get rest k

/-- Python `d[k] = v`: update the existing entry in place (keeping its
position) or append a new one. -/
def dict_set (d : List (String × JsonVal)) (k : String) (v : JsonVal) :
    List (String × JsonVal) :=
  match d with
  | [] => [(k, v)]
  | kv :: rest => if kv.1 = k then (k, v) :: rest else kv :: dict_set rest k v

/-- Python `d.pop(k)` with no default: `none` models the `KeyError`. -/
def dict_pop (d : List (String × JsonVal)) (k : String) :
    Option (List (String × JsonVal)) :=
  match d with
  | [] => none
  | kv :: rest =>
    if kv.1 = k then some rest
    else (dict_pop rest k).map (fun r => kv :: r)

/-- Whitespace characters stripped by Python `int(str)` and skipped by
`json.loads`. -/
def isPyWs (c : Char) : Bool :=
  c = ' ' ∨ c = '\t' ∨ c = '\n' ∨ c = '\r'

def isDigitChar (c : Char) : Bool :=
  48 ≤ c.toNat ∧ c.toNat ≤ 57

/-- Value of a run of decimal digits, most significant first. -/
def digitsVal (l : List Char) (acc : Nat) : Nat :=
  match l with
  | [] => acc
  | c :: rest => digitsVal rest (acc * 10 + (c.toNat - 48))

/-- Python `int(s)` for a string `s`: optional surrounding whitespace,
optional sign, at least one digit. (Exotic accepted forms such as digit
group underscores are not modelled.) `none` models the `ValueError`. -/
def pyIntOfString (s : String) : Option Int :=
  let t := ((s.data.dropWhile isPyWs).reverse.dropWhile isPyWs).reverse
  let (neg, ds) :=
    match t with
    | '-' :: rest => (true, rest)
    | '+' :: rest => (false, rest)
    | rest => (false, rest)
  if ds ≠ [] ∧ ds.all isDigitChar then
    some (if neg then -(digitsVal ds 0 : Int) else (digitsVal ds 0 : Int))
  else none

/-- Python `int(v)` on a cached value: an `int` is returned unchanged,
a `bool` converts to 0/1, a numeric string is parsed; anything else
raises (`ValueError`/`TypeError`), modelled by `none`. -/
def pyInt (v : JsonVal) : Option Int :=
  match v with
  | .jint n => some n
  | .jbool b => some (if b then 1 else 0)
  | .jstr s => pyIntOfString s
  | _ => none

/-- Status of a path as seen by the scan: `os.path.isfile` is false
(`missing`), or it is true and `os.stat` raises `OSError` (`statError`),
or it is a regular file with the given `st_mtime_ns` (`regularFile`). -/
inductive FileStatus where
  | missing : FileStatus
  | statError : FileStatus
  | regularFile : Int → FileStatus

/-- Exceptions that can escape `FileMonitor.__scan_files_for_changes`:
`KeyError` from `dict.pop` on a missing key, `ValueError` from `int()`
on an unconvertible cached value, and `TypeError` from
`str.rfind(None)` inside the persist step when `os.altsep` is `None`
(POSIX). -/
inductive ScanError where
  | keyError : String → ScanError
  | valueError : String → ScanError
  | typeError : ScanError

/-- The loop-local state of one run of `__scan_files_for_changes`. -/
structure ScanState where
  file_list : List String
  file_cache : List (String × JsonVal)
  changed_files : List String
  removed_files : List String

/-- The `for file in self.file_list:` loop of `__scan_files_for_changes`,
lines 189–202. Python's list iterator yields `file_list[i]` and then
advances to `i+1` even when the body shrinks the list, so a `pop` at or
before the current index makes the iterator pass over the element that
shifts into position `i`. The body, per branch of `os.path.isfile`:

* regular file: `os.stat` may raise `OSError` (caught: log and
  `continue`); otherwise the file counts as changed unless it is in the
  cache with `int(cache[file]) == st_mtime_ns` (an unconvertible cached
  value makes `int` raise out of the scan);
* not a regular file: `file_list.pop(file_list.index(file))` (first
  occurrence), then `cache.pop(file)` — a `KeyError` if absent — then
  the file is recorded as removed. -/
def scan_loop (fs : String → FileStatus) (i : Nat) (st : ScanState) :
    Except ScanError ScanState :=
  if h : i < st.file_list.length then
    let file := st.file_list.get ⟨i, h⟩
    match fs file with
    | .regularFile last_modified =>
      if dict_contains st.file_cache file then
        match dict_get st.file_cache file with
        | none => scan_loop fs (i + 1) st
        | some v =>
          match pyInt v with
          | none => .error (.valueError file)
          | some cached =>
            if cached = last_modified then scan_loop fs (i + 1) st
            else
              scan_loop fs (i + 1)
                { st with
                  changed_files := st.changed_files ++ [file]
                  file_cache := dict_set st.file_cache file (.jint last_modified) }
      else
        scan_loop fs (i + 1)
          { st with
            changed_files := st.changed_files ++ [file]
            file_cache := dict_set st.file_cache file (.jint last_modified) }
    | .statError => scan_loop fs (i + 1) st
    | .missing =>
      let idx := st.file_list.indexOf file
      match dict_pop st.file_cache file with
      | none => .error (.keyError file)
      | some cache' =>
        scan_loop fs (i + 1)
          { file_list := st.file_list.eraseIdx idx
            file_cache := cache'
            changed_files := st.changed_files
            removed_files := st.removed_files ++ [file] }
  else
    .ok st
termination_by st.file_list.length - i
decreasing_by
  all_goals simp_all [List.length_eraseIdx]
  all_goals omega

/-! ## json.dumps (default arguments), on the cache fragment -/

/-- The `\x7b` character. -/
def lbraceChar : Char := Char.ofNat 123

/-- The `\x7d` character. -/
def rbraceChar : Char := Char.ofNat 125

/-- Lower-case hexadecimal digit, as emitted by `json.dumps`. -/
def hexDigitChar (n : Nat) : Char :=
  if n < 10 then Char.ofNat (48 + n) else Char.ofNat (87 + n)

/-- Four hex digits, most significant first (`\uXXXX` body). -/
def hex4 (n : Nat) : List Char :=
  [hexDigitChar (n / 4096 % 16), hexDigitChar (n / 256 % 16),
   hexDigitChar (n / 16 % 16), hexDigitChar (n % 16)]

def uEscape (n : Nat) : List Char :=
  '\\' :: 'u' :: hex4 n

/-- `json.dumps` (default `ensure_ascii=True`) encoding of one character:
`"` and `\` get a backslash escape, the five classic control characters
get their short escapes, printable ASCII is emitted verbatim, everything
else becomes `\uXXXX` (a surrogate pair for characters above U+FFFF). -/
def escapeChar (c : Char) : List Char :=
  if c = '"' then ['\\', '"']
  else if c = '\\' then ['\\', '\\']
  else if c = Char.ofNat 8 then ['\\', 'b']
  else if c = Char.ofNat 9 then ['\\', 't']
  else if c = Char.ofNat 10 then ['\\', 'n']
  else if c = Char.ofNat 12 then ['\\', 'f']
  else if c = Char.ofNat 13 then ['\\', 'r']
  else if 32 ≤ c.toNat ∧ c.toNat ≤ 126 then [c]
  else if c.toNat < 65536 then uEscape c.toNat
  else uEscape (55296 + (c.toNat - 65536) / 1024) ++
       uEscape (56320 + (c.toNat - 65536) % 1024)

def escapeString (s : String) : List Char :=
  s.data.flatMap escapeChar

/-- A JSON string literal: `"` … escaped content … `"`. -/
def dumpString (s : String) : List Char :=
  '"' :: escapeString s ++ ['"']

def digitChar (n : Nat) : Char := Char.ofNat (48 + n)

/-- Decimal digits of `n`, as Python prints a non-negative `int`. -/
def natChars (n : Nat) : List Char :=
  if n < 10 then [digitChar n]
  else natChars (n / 10) ++ [digitChar (n % 10)]
decreasing_by
  exact Nat.div_lt_self (by omega) (by omega)

/-- Python rendering of an `int` (as used by `json.dumps`). -/
def dumpInt (n : Int) : List Char :=
  if n < 0 then '-' :: natChars n.natAbs else natChars n.toNat

-- `json.dumps` with its default separators `(', ', ': ')`.
mutual

/-- Serialize one JSON value (`json.dumps` body). -/
def dumpVal : JsonVal → List Char
  | .jnull => ['n', 'u', 'l', 'l']
  | .jbool true => ['t', 'r', 'u', 'e']
  | .jbool false => ['f', 'a', 'l', 's', 'e']
  | .jint n => dumpInt n
  | .jstr s => dumpString s
  | .jobj ms => lbraceChar :: dumpMembers ms ++ [rbraceChar]

/-- Serialize the members of a JSON object, `", "`-separated. -/
def dumpMembers : List (String × JsonVal) → List Char
  | [] => []
  | [kv] => dumpString kv.1 ++ ':' :: ' ' :: dumpVal kv.2
  | kv :: rest =>
    dumpString kv.1 ++ ':' :: ' ' :: dumpVal kv.2 ++ ',' :: ' ' :: dumpMembers rest

end

/-- `json.dumps(value)` as a string. -/
def jsonDumps (v : JsonVal) : String :=
  String.mk (dumpVal v)

/-! ## json.loads, on the same fragment -/

/-- Skip the whitespace characters `json.loads` skips between tokens. -/
def skipWs (l : List Char) : List Char :=
  match l with
  | [] => []
  | c :: rest => if isPyWs c then skipWs rest else c :: rest

/-- Value of one hexadecimal digit (both cases accepted). -/
def hexVal (c : Char) : Option Nat :=
  if 48 ≤ c.toNat ∧ c.toNat ≤ 57 then some (c.toNat - 48)
  else if 97 ≤ c.toNat ∧ c.toNat ≤ 102 then some (c.toNat - 87)
  else if 65 ≤ c.toNat ∧ c.toNat ≤ 70 then some (c.toNat - 55)
  else none

/-- Prepend a decoded character to a string-parse result. -/
def consMap (c : Char) (r : Option (List Char × List Char)) :
    Option (List Char × List Char) :=
  r.map (fun pr => (c :: pr.1, pr.2))

/-- Read four hexadecimal digits (the body of a `\uXXXX` escape). -/
def readHex4 (l : List Char) : Option (Nat × List Char) :=
  match l with
  | a :: b :: c2 :: d :: rest =>
    match hexVal a, hexVal b, hexVal c2, hexVal d with
    | some h1, some h2, some h3, some h4 =>
      some (h1 * 4096 + h2 * 256 + h3 * 16 + h4, rest)
    | _, _, _, _ => none
  | _ => none

/-- Continuation of the `\uXXXX` decoder once the first four hex digits
gave `n`: a high surrogate followed by another `\u` escape holding a
low surrogate is recombined into one character. A lone surrogate —
which Python would keep as a lone surrogate character, something a Lean
`Char` cannot hold — is mapped through `Char.ofNat`; no serializer
output ever contains one. -/
def parseUnicodeHigh (n : Nat) (rest : List Char) : Option (Char × List Char) :=
  if 55296 ≤ n ∧ n ≤ 56319 then
    match rest with
    | b1 :: u1 :: rest2 =>
      if b1 = '\\' ∧ u1 = 'u' then
        match readHex4 rest2 with
        | some (m, rest3) =>
          if 56320 ≤ m ∧ m ≤ 57343 then
            some (Char.ofNat (65536 + (n - 55296) * 1024 + (m - 56320)), rest3)
          else some (Char.ofNat n, rest)
        | none => some (Char.ofNat n, rest)
      else some (Char.ofNat n, rest)
    | _ => some (Char.ofNat n, rest)
  else some (Char.ofNat n, rest)

/-- The `\uXXXX` decoder of `json.loads`, called after `\u` has been
consumed: four hex digits, then surrogate-pair handling. -/
def parseUnicodeEscape (l : List Char) : Option (Char × List Char) :=
  match readHex4 l with
  | none => none
  | some (n, rest) => parseUnicodeHigh n rest

/-- Body of a JSON string literal (after the opening `"`), as decoded by
`json.loads` in strict mode: ends at an unescaped `"`, understands the
short escapes and `\uXXXX` (via `parseUnicodeEscape`), and rejects raw
control characters and unknown escapes. The `fuel` argument only forces
termination: every step consumes at least one character, so callers
pass `length + 1`. -/
def parseStringBody : Nat → List Char → Option (List Char × List Char)
  | 0, _ => none
  | fuel + 1, l =>
    match l with
    | [] => none
    | c :: rest =>
      if c = '"' then some ([], rest)
      else if c = '\\' then
        match rest with
        | [] => none
        | e :: rest2 =>
          if e = '"' then consMap '"' (parseStringBody fuel rest2)
          else if e = '\\' then consMap '\\' (parseStringBody fuel rest2)
          else if e = '/' then consMap '/' (parseStringBody fuel rest2)
          else if e = 'b' then consMap (Char.ofNat 8) (parseStringBody fuel rest2)
          else if e = 't' then consMap (Char.ofNat 9) (parseStringBody fuel rest2)
          else if e = 'n' then consMap (Char.ofNat 10) (parseStringBody fuel rest2)
          else if e = 'f' then consMap (Char.ofNat 12) (parseStringBody fuel rest2)
          else if e = 'r' then consMap (Char.ofNat 13) (parseStringBody fuel rest2)
          else if e = 'u' then
            match parseUnicodeEscape rest2 with
            | some (ch, rest3) => consMap ch (parseStringBody fuel rest3)
            | none => none
          else none
      else if c.toNat < 32 then none
      else consMap c (parseStringBody fuel rest)

/-- Split a leading run of decimal digits from the input. -/
def takeDigits (l : List Char) : List Char × List Char :=
  match l with
  | [] => ([], [])
  | c :: rest =>
    if isDigitChar c then
      let (ds, r) := takeDigits rest
      (c :: ds, r)
    else ([], c :: rest)

/-- A JSON integer token: optional `-`, then digits with no redundant
leading zero (the JSON grammar `-?(0|[1-9][0-9]*)`). Floats are not
modelled (see module comment), so a fractional or exponent part makes
the surrounding parse fail rather than produce a float. -/
def parseIntToken (l : List Char) : Option (JsonVal × List Char) :=
  let (neg, l2) :=
    match l with
    | c :: rest => if c = '-' then (true, rest) else (false, c :: rest)
    | [] => (false, [])
  match takeDigits l2 with
  | ([], _) => none
  | (ds, rest) =>
    if ds.head? = some '0' ∧ ds.length > 1 then none
    else
      let v : Int := (digitsVal ds 0 : Nat)
      some (.jint (if neg then -v else v), rest)

-- The recursive descent of `json.loads` over values and object members,
-- with a fuel argument for termination; `jsonLoads` supplies fuel larger
-- than the input can consume. Object members are accumulated with
-- `dict_set`, matching Python `dict` building (duplicate keys: last value
-- wins, first position kept).
mutual

/-- Parse one JSON value (fragment: string, object, literal, integer). -/
def parseValue : Nat → List Char → Option (JsonVal × List Char)
  | 0, _ => none
  | fuel + 1, l =>
    match skipWs l with
    | [] => none
    | c :: rest =>
      if c = '"' then
        (parseStringBody (rest.length + 1) rest).map
          (fun pr => (JsonVal.jstr (String.mk pr.1), pr.2))
      else if c = lbraceChar then
        match skipWs rest with
        | c2 :: rest2 =>
          if c2 = rbraceChar then some (.jobj [], rest2)
          else parsePairs fuel (c2 :: rest2) []
        | [] => none
      else if c = 'n' then
        match rest with
        | 'u' :: 'l' :: 'l' :: r => some (.jnull, r)
        | _ => none
      else if c = 't' then
        match rest with
        | 'r' :: 'u' :: 'e' :: r => some (.jbool true, r)
        | _ => none
      else if c = 'f' then
        match rest with
        | 'a' :: 'l' :: 's' :: 'e' :: r => some (.jbool false, r)
        | _ => none
      else parseIntToken (c :: rest)

/-- Parse `"key": value` members until the closing brace, starting at a
key (the caller has consumed `\x7b` and any whitespace). -/
def parsePairs : Nat → List Char → List (String × JsonVal) →
    Option (JsonVal × List Char)
  | 0, _, _ => none
  | fuel + 1, l, acc =>
    match l with
    | [] => none
    | c :: rest =>
      if c = '"' then
        match parseStringBody (rest.length + 1) rest with
        | none => none
        | some (kcs, rest2) =>
          match skipWs rest2 with
          | [] => none
          | c2 :: rest3 =>
            if c2 = ':' then
              match parseValue fuel rest3 with
              | none => none
              | some (v, rest4) =>
                let acc' := dict_set acc (String.mk kcs) v
                match skipWs rest4 with
                | [] => none
                | c3 :: rest5 =>
                  if c3 = ',' then parsePairs fuel (skipWs rest5) acc'
                  else if c3 = rbraceChar then some (.jobj acc', rest5)
                  else none
            else none
      else none

end

/-- `json.loads(s)`: parse one value and require only whitespace after
it. `none` models `json.JSONDecodeError`. -/
def jsonLoads (s : String) : Option JsonVal :=
  match parseValue (s.data.length + 1) s.data with
  | some (v, rest) => if skipWs rest = [] then some v else none
  | none => none

/-! ## Cache loading (`FileMonitor.__init__`, lines 140–149) -/

/-- The cache-reading block of `FileMonitor.__init__`. The persisted
cache file is `none` when `os.path.exists` is false. Returns the
resulting `self.__file_cache` together with a flag telling whether the
`except (json.JSONDecodeError, SyntaxError)` handler ran (it logs the
"Error when parsing file cache" message at ERROR level and leaves the
cache empty). A well-formed JSON value that is not a `dict` raises
`SyntaxError`, which the same handler catches. -/
def load_file_cache (fresh_start : Bool) (cache_file_content : Option String) :
    List (String × JsonVal) × Bool :=
  match cache_file_content, fresh_start with
  | some content, false =>
    match jsonLoads content with
    | none => ([], true)
    | some (.jobj d) => (d, false)
    | some _ => ([], true)
  | _, _ => ([], false)

/-! ## Path utilities (`src/filemonitor/os_utils.py`) -/

/-- Python `str.rfind(c)`: highest index of `c`, or `-1`. -/
def rfindChar (l : List Char) (c : Char) : Int :=
  match l with
  | [] => -1
  | a :: rest =>
    let r := rfindChar rest c
    if r ≥ 0 then r + 1 else if a = c then 0 else -1

/-- The `TypeError` that `str.rfind(None)` raises. -/
inductive PathError where
  | typeError : PathError

/-- Python `file_path.rfind(os.altsep)`: `os.altsep` is a character on
Windows but `None` on POSIX, and `str.rfind(None)` raises `TypeError`
(modelled by `.error`). -/
def rfindAltsep (l : List Char) (altsep : Option Char) : Except PathError Int :=
  match altsep with
  | none => .error .typeError
  | some c => .ok (rfindChar l c)

/-- One round of `remove_last_part_of_path`: find the last occurrence
of `os.sep` and of `os.altsep` and cut before the later of the two. On
POSIX the `os.altsep` lookup itself raises `TypeError`. -/
def remove_last_part_once (sep : Char) (altsep : Option Char) (p : List Char) :
    Except PathError (List Char) :=
  let sep_loc := rfindChar p sep
  match rfindAltsep p altsep with
  | .error e => .error e
  | .ok altsep_loc =>
    let loc := max sep_loc altsep_loc
    .ok (if loc ≠ -1 then p.take loc.toNat else [])

/-- The `for i in range(repetitions)` loop of `remove_last_part_of_path`;
an exception in any round aborts the whole call. -/
def remove_last_part_loop (sep : Char) (altsep : Option Char) :
    Nat → List Char → Except PathError (List Char)
  | 0, p => .ok p
  | k + 1, p =>
    match remove_last_part_once sep altsep p with
    | .error e => .error e
    | .ok p2 => remove_last_part_loop sep altsep k p2

/-- `remove_last_part_of_path(file_path, repetitions)`. -/
def remove_last_part_of_path (sep : Char) (altsep : Option Char)
    (file_path : String) (repetitions : Nat) : Except PathError String :=
  (remove_last_part_loop sep altsep repetitions file_path.data).map String.mk

/-- `persist_file_path(file_path, is_file)`: the filesystem's directory
set is modelled as the list `dirs`; `os.makedirs` registers the missing
directory path (intermediate directories are implied and not tracked
separately). The `TypeError` from `remove_last_part_of_path` on POSIX
propagates. -/
def persist_file_path (sep : Char) (altsep : Option Char) (dirs : List String)
    (file_path : String) (is_file : Bool) : Except PathError (List String) :=
  match (if is_file then remove_last_part_of_path sep altsep file_path 1
         else .ok file_path) with
  | .error e => .error e
  | .ok p => .ok (if p ∈ dirs then dirs else dirs ++ [p])

/-! ## The full change scan (`__scan_files_for_changes`, lines 184–216) -/

/-- The monitor state touched by `__scan_files_for_changes`: the mutable
file list and cache, the cache path, and the bits of filesystem state
the scan can write (the persisted cache file and the directory set). -/
structure MonitorState where
  file_list : List String
  file_cache : List (String × JsonVal)
  metadata_cache_path : String
  cache_file_content : Option String
  dirs : List String

/-- What one scan reports: the changed and removed lists it built and,
when it fired, the `file_monitor_action_on_change` call with its
`change_list` and `file_list` (copy) arguments. -/
structure ScanReport where
  changed_files : List String
  removed_files : List String
  callback : Option (List String × List String)

/-- `__scan_files_for_changes` (lines 184–216): run the scan loop over
the current file list; if any changed or removed file was found, invoke
the subscriber callback and then persist the cache — ensure the parent
directory of the cache path exists and overwrite the file with
`json.dumps` of the full cache. On POSIX (`altsep = none`) the persist
step raises `TypeError` out of the scan; the callback has already run
at that point (Python invokes it before persisting), but the exception
result carries no report. -/
def scan_files_for_changes (sep : Char) (altsep : Option Char)
    (fs : String → FileStatus) (st : MonitorState) :
    Except ScanError (MonitorState × ScanReport) :=
  match scan_loop fs 0 ⟨st.file_list, st.file_cache, [], []⟩ with
  | .error e => .error e
  | .ok r =>
    if r.changed_files.length > 0 ∨ r.removed_files.length > 0 then
      match persist_file_path sep altsep st.dirs st.metadata_cache_path true with
      | .error _ => .error .typeError
      | .ok dirs2 =>
        .ok ({ st with
                file_list := r.file_list
                file_cache := r.file_cache
                dirs := dirs2
                cache_file_content := some (jsonDumps (.jobj r.file_cache)) },
             { changed_files := r.changed_files
               removed_files := r.removed_files
               callback := some (r.changed_files, r.file_list) })
    else
      .ok ({ st with file_list := r.file_list, file_cache := r.file_cache },
           { changed_files := r.changed_files
             removed_files := r.removed_files
             callback := none })

/-! ## Action queue and scheduler (`FileMonitorActionQueue`,
`FileMonitor.monitor`, `__queue_new_action`) -/

/-- `FileMonitorActionType` (the enum; the numeric values are unused by
the logic). -/
inductive FileMonitorActionType where
  | SEARCH_FOR_NEW_FILES : FileMonitorActionType
  | SCAN_FILES_FOR_CHANGES : FileMonitorActionType
deriving DecidableEq

/-- `FileMonitorAction`: a sortable action container ordered by
`action_time` (nanoseconds). -/
structure FileMonitorAction where
  action_type : FileMonitorActionType
  action_time : Int
deriving DecidableEq

/-- The comparison `FileMonitorAction.__le__` used for sorting. -/
def actionLe (a b : FileMonitorAction) : Prop :=
  a.action_time ≤ b.action_time

instance : DecidableRel actionLe :=
  fun a b => inferInstanceAs (Decidable (a.action_time ≤ b.action_time))

instance : IsTotal FileMonitorAction actionLe :=
  ⟨fun a b => Int.le_total a.action_time b.action_time⟩

instance : IsTrans FileMonitorAction actionLe :=
  ⟨fun _ _ _ hab hbc => le_trans hab hbc⟩

/-- `FileMonitorActionQueue`: a list kept sorted by re-sorting after each
append. -/
structure FileMonitorActionQueue where
  queue : List FileMonitorAction
deriving DecidableEq

/-- `put`: `self.queue.append(action); self.queue.sort()`. Python's
`list.sort` is a stable sort driven by `__lt__`/`__le__`; it is modelled
by (stable) insertion sort on `action_time`. -/
def FileMonitorActionQueue.put (q : FileMonitorActionQueue)
    (action : FileMonitorAction) : FileMonitorActionQueue :=
  ⟨List.insertionSort actionLe (q.queue ++ [action])⟩

/-- `get`: `self.queue.pop(0) if len(self.queue) > 0 else None`. -/
def FileMonitorActionQueue.get (q : FileMonitorActionQueue) :
    Option FileMonitorAction × FileMonitorActionQueue :=
  match q.queue with
  | [] => (none, q)
  | a :: rest => (some a, ⟨rest⟩)

def NANO_DIVISOR : Int := 1000000000

def SECS_IN_HOUR : Int := 60 * 60

def NANO_SECS_IN_HOUR : Int := SECS_IN_HOUR * NANO_DIVISOR

/-- `__queue_new_action` (lines 224–238): enqueue the next occurrence of
`action_type` at `time.time_ns() + __NANO_SECS_IN_HOUR // frequency`,
but only when that task's frequency is `> 0`. Python `//` is floor
division, `Int.fdiv`. -/
def queue_new_action (new_files_search_frequency file_update_scan_frequency : Int)
    (now : Int) (action_type : FileMonitorActionType)
    (q : FileMonitorActionQueue) : FileMonitorActionQueue :=
  match action_type with
  | .SEARCH_FOR_NEW_FILES =>
    if new_files_search_frequency > 0 then
      q.put ⟨.SEARCH_FOR_NEW_FILES,
             now + NANO_SECS_IN_HOUR.fdiv new_files_search_frequency⟩
    else q
  | .SCAN_FILES_FOR_CHANGES =>
    if file_update_scan_frequency > 0 then
      q.put ⟨.SCAN_FILES_FOR_CHANGES,
             now + NANO_SECS_IN_HOUR.fdiv file_update_scan_frequency⟩
    else q

/-- The queue seeding of `__init__` (lines 153–155): an empty queue, then
`__queue_new_action(SCAN_FILES_FOR_CHANGES)` and
`__queue_new_action(SEARCH_FOR_NEW_FILES)`, each reading the clock. -/
def init_action_queue (new_files_search_frequency file_update_scan_frequency : Int)
    (now1 now2 : Int) : FileMonitorActionQueue :=
  queue_new_action new_files_search_frequency file_update_scan_frequency now2
    .SEARCH_FOR_NEW_FILES
    (queue_new_action new_files_search_frequency file_update_scan_frequency now1
      .SCAN_FILES_FOR_CHANGES ⟨[]⟩)

/-- One iteration of the `while True:` loop of `monitor` (lines 164–182),
restricted to its queue effects: pop the next action (if the queue is
empty, `next_action.action_time` on `None` raises, modelled by `none`),
re-enqueue its type, and dispatch it. Sleeping and lag counting only
log. Returns the dispatched action type and the new queue. -/
def monitor_step (new_files_search_frequency file_update_scan_frequency : Int)
    (now : Int) (q : FileMonitorActionQueue) :
    Option (FileMonitorActionType × FileMonitorActionQueue) :=
  match q.get with
  | (none, _) => none
  | (some a, q') =>
    some (a.action_type,
          queue_new_action new_files_search_frequency file_update_scan_frequency
            now a.action_type q')

/-- Finitely many iterations of the monitor loop, one per clock reading
in `nows`; collects the dispatched action types. -/
def monitor_run (new_files_search_frequency file_update_scan_frequency : Int)
    (nows : List Int) (q : FileMonitorActionQueue) :
    Option (List FileMonitorActionType × FileMonitorActionQueue) :=
  match nows with
  | [] => some ([], q)
  | now :: rest =>
    match monitor_step new_files_search_frequency file_update_scan_frequency now q with
    | none => none
    | some (t, q') =>
      (monitor_run new_files_search_frequency file_update_scan_frequency rest q').map
        (fun pr => (t :: pr.1, pr.2))

/-! ## Library lemmas about the dictionary model -/

theorem dict_get_set_ne (d : List (String × JsonVal)) (k k' : String) (v : JsonVal)
    (h : k' ≠ k) : dict_get (dict_set d k v) k' = dict_get d k' := by
  have h1 : ¬ (k = k') := fun hh => h hh.symm
  induction d with
  | nil => simp [dict_set, dict_get, h1]
  | cons kv rest ih =>
    by_cases hk : kv.1 = k
    · have h2 : ¬ (kv.1 = k') := by rw [hk]; exact h1
      simp [dict_set, hk, dict_get, h1, h2]
    · by_cases h3 : kv.1 = k'
      · simp [dict_set, hk, dict_get, h3, h]
      · simp [dict_set, hk, dict_get, h3, ih]

theorem dict_pop_get_ne (k k' : String) (hne : k' ≠ k) :
    ∀ (d d' : List (String × JsonVal)), dict_pop d k = some d' →
      dict_get d' k' = dict_get d k' := by
  intro d
  induction d with
  | nil => intro d' h; simp [dict_pop] at h
  | cons kv rest ih =>
    intro d' h
    by_cases hk : kv.1 = k
    · simp [dict_pop, hk] at h
      subst h
      have h2 : ¬ (kv.1 = k') := by rw [hk]; exact fun hh => hne hh.symm
      simp [dict_get, h2]
    · simp [dict_pop, hk] at h
      obtain ⟨r, hr, hd⟩ := h
      subst hd
      by_cases h3 : kv.1 = k'
      · simp [dict_get, h3]
      · simp [dict_get, h3, ih r hr]

theorem mem_eraseIdx_indexOf (a p : String) (h : p ≠ a) :
    ∀ (l : List String), p ∈ l.eraseIdx (l.indexOf a) ↔ p ∈ l := by
  intro l
  induction l with
  | nil => simp
  | cons b t ih =>
    by_cases hb : b = a
    · have hba : (b == a) = true := beq_iff_eq.mpr hb
      rw [List.indexOf_cons, hba]
      simp only [cond_true, List.eraseIdx_cons_zero, List.mem_cons]
      constructor
      · intro hm; exact Or.inr hm
      · intro hm
        rcases hm with h1 | h1
        · exact absurd (h1.trans hb) h
        · exact h1
    · have hba : (b == a) = false := beq_eq_false_iff_ne.mpr hb
      rw [List.indexOf_cons, hba]
      simp only [cond_false, List.eraseIdx_cons_succ, List.mem_cons, ih]

/-- A path whose stat raises keeps its report entries and cache entry
untouched across the whole scan loop, and survives in the file list. -/
theorem scan_loop_statError_invariant (fs : String → FileStatus) (p : String)
    (hp : fs p = .statError) (i : Nat) (st : ScanState) :
    ∀ st', scan_loop fs i st = .ok st' →
      (p ∈ st'.changed_files ↔ p ∈ st.changed_files) ∧
      (p ∈ st'.removed_files ↔ p ∈ st.removed_files) ∧
      dict_get st'.file_cache p = dict_get st.file_cache p ∧
      (p ∈ st.file_list → p ∈ st'.file_list) := by
  induction i, st using scan_loop.induct fs with
  | case1 i st h file lm hreg hc hget ih =>
    intro st' hok
    rw [scan_loop] at hok
    simp only [dif_pos h, hreg, hc, hget] at hok
    exact ih st' hok
  | case2 i st h file lm hreg hc v hget hpy =>
    intro st' hok
    rw [scan_loop] at hok
    simp only [dif_pos h, hreg, hc, hget, hpy] at hok
    simp at hok
  | case3 i st h file hc v hget cached hpy hreg ih =>
    intro st' hok
    rw [scan_loop] at hok
    simp only [dif_pos h, hreg, hc, hget, hpy, if_pos rfl] at hok
    exact ih st' hok
  | case4 i st h file lm hreg hc v hget cached hpy hne ih =>
    intro st' hok
    rw [scan_loop] at hok
    simp only [dif_pos h, hreg, hc, hget, hpy, if_neg hne] at hok
    have hfp : p ≠ file := by
      intro he; rw [← he, hp] at hreg; simp at hreg
    obtain ⟨h1, h2, h3, h4⟩ := ih st' hok
    refine ⟨h1.trans (by simp [hfp]), h2, ?_, h4⟩
    rw [h3]; exact dict_get_set_ne _ _ _ _ hfp
  | case5 i st h file lm hreg hnc ih =>
    intro st' hok
    rw [scan_loop] at hok
    simp only [dif_pos h, hreg, hnc, if_neg] at hok
    have hfp : p ≠ file := by
      intro he; rw [← he, hp] at hreg; simp at hreg
    obtain ⟨h1, h2, h3, h4⟩ := ih st' hok
    refine ⟨h1.trans (by simp [hfp]), h2, ?_, h4⟩
    rw [h3]; exact dict_get_set_ne _ _ _ _ hfp
  | case6 i st h file hstat ih =>
    intro st' hok
    rw [scan_loop] at hok
    simp only [dif_pos h, hstat] at hok
    exact ih st' hok
  | case7 i st h file hmiss hpop =>
    intro st' hok
    rw [scan_loop] at hok
    simp only [dif_pos h, hmiss, hpop] at hok
    simp at hok
  | case8 i st h file hmiss idx cache' hpop ih =>
    intro st' hok
    rw [scan_loop] at hok
    simp only [dif_pos h, hmiss, hpop] at hok
    have hfp : p ≠ file := by
      intro he; rw [← he, hp] at hmiss; simp at hmiss
    obtain ⟨h1, h2, h3, h4⟩ := ih st' hok
    refine ⟨h1, h2.trans (by simp [hfp]), ?_, ?_⟩
    · rw [h3]; exact dict_pop_get_ne _ _ hfp _ _ hpop
    · intro hpl
      exact h4 ((mem_eraseIdx_indexOf _ _ hfp _).mpr hpl)
  | case9 i st h =>
    intro st' hok
    rw [scan_loop] at hok
    simp only [dif_neg h] at hok
    cases hok
    exact ⟨Iff.rfl, Iff.rfl, rfl, id⟩

/-! ## Claim theorems (part 1) -/

/-- C1 (refuted — code bug): not every path present at scan start is
processed. With `file_list = ["a", "b"]`, `"a"` missing and cached, and
`"b"` a regular file absent from the cache, the scan removes `"a"` and
then terminates without ever examining `"b"`: the `pop` inside the
`for` loop shifts `"b"` into the index the iterator has already passed.
A faithful per-path treatment would have reported `"b"` as changed;
the result records it neither as changed nor as removed. -/
theorem c1_scan_passes_over_path_after_removal :
    scan_loop (fun s => if s = "a" then .missing else .regularFile 5) 0
      ⟨["a", "b"], [("a", .jint 0)], [], []⟩ =
      .ok ⟨["b"], [], [], ["a"]⟩ := by
  simp [scan_loop, dict_pop, List.indexOf, List.findIdx, List.findIdx.go]

/-- C2 (refuted — code bug): a path that is not a regular file and has
no cache entry makes `self.__file_cache.pop(file)` raise `KeyError`,
which escapes `__scan_files_for_changes` instead of the path being
treated as a normal removal. -/
theorem c2_missing_uncached_file_raises_keyerror :
    scan_files_for_changes '/' (some '\\') (fun _ => FileStatus.missing)
      ⟨["a"], [], "d/x.cache", none, []⟩ = .error (.keyError "a") := by
  simp [scan_files_for_changes, scan_loop, dict_pop, List.indexOf, List.findIdx,
    List.findIdx.go]

/-- C8 (refuted — code bug): two consecutive scans with an unchanged
filesystem are not idempotent. With `["a", "b"]` both missing and both
cached, the first scan removes only `"a"` (the loop skips `"b"` after
the `pop`), so the second scan still finds `"b"`, reports one removed
file, invokes the callback and persists again. -/
theorem c8_second_scan_reports_removal :
    scan_files_for_changes '/' (some '\\') (fun _ => FileStatus.missing)
      ⟨["a", "b"], [("a", .jint 0), ("b", .jint 0)], "d/x.cache", none, []⟩ =
      .ok (⟨["b"], [("b", .jint 0)], "d/x.cache",
            some (jsonDumps (.jobj [("b", .jint 0)])), ["d"]⟩,
           ⟨[], ["a"], some ([], ["b"])⟩) ∧
    scan_files_for_changes '/' (some '\\') (fun _ => FileStatus.missing)
      ⟨["b"], [("b", .jint 0)], "d/x.cache",
        some (jsonDumps (.jobj [("b", .jint 0)])), ["d"]⟩ =
      .ok (⟨[], [], "d/x.cache", some (jsonDumps (.jobj [])), ["d"]⟩,
           ⟨[], ["b"], some ([], [])⟩) := by
  constructor <;>
    simp [scan_files_for_changes, scan_loop, dict_pop, List.indexOf, List.findIdx,
      List.findIdx.go, persist_file_path, remove_last_part_of_path,
      remove_last_part_loop, remove_last_part_once, rfindAltsep, rfindChar,
      Except.map]

/-- C9: a file whose `os.stat` raises a recoverable `OSError` is skipped
for the current iteration: the loop continues at the next index with
nothing recorded, and over a whole scan such a path ends up in neither
report list, keeps its cache entry, and stays in the file list. -/
theorem c9_stat_error_skips_file :
    (∀ (fs : String → FileStatus) (i : Nat) (st : ScanState)
       (h : i < st.file_list.length),
      fs (st.file_list.get ⟨i, h⟩) = .statError →
      scan_loop fs i st = scan_loop fs (i + 1) st) ∧
    (∀ (sep : Char) (altsep : Option Char) (fs : String → FileStatus) (p : String)
       (st st' : MonitorState) (rep : ScanReport),
      fs p = .statError →
      scan_files_for_changes sep altsep fs st = .ok (st', rep) →
      p ∉ rep.changed_files ∧ p ∉ rep.removed_files ∧
      dict_get st'.file_cache p = dict_get st.file_cache p ∧
      (p ∈ st.file_list → p ∈ st'.file_list)) := by
  constructor
  · intro fs i st h hstat
    rw [scan_loop]
    simp only [dif_pos h, hstat]
  · intro sep altsep fs p st st' rep hp hscan
    unfold scan_files_for_changes at hscan
    cases hloop : scan_loop fs 0 ⟨st.file_list, st.file_cache, [], []⟩ with
    | error e => rw [hloop] at hscan; simp at hscan
    | ok r =>
      rw [hloop] at hscan
      dsimp only at hscan
      obtain ⟨c_iff, r_iff, cache_eq, list_imp⟩ :=
        scan_loop_statError_invariant fs p hp 0 ⟨st.file_list, st.file_cache, [], []⟩ r hloop
      by_cases hch : r.changed_files.length > 0 ∨ r.removed_files.length > 0
      · rw [if_pos hch] at hscan
        cases hp : persist_file_path sep altsep st.dirs st.metadata_cache_path true with
        | error e => rw [hp] at hscan; simp at hscan
        | ok dirs2 =>
          rw [hp] at hscan
          dsimp only at hscan
          simp only [Except.ok.injEq, Prod.mk.injEq] at hscan
          obtain ⟨hst, hrep⟩ := hscan
          subst hst hrep
          refine ⟨fun hm => ?_, fun hm => ?_, cache_eq, list_imp⟩
          · exact absurd (c_iff.mp hm) (by simp)
          · exact absurd (r_iff.mp hm) (by simp)
      · rw [if_neg hch] at hscan
        simp only [Except.ok.injEq, Prod.mk.injEq] at hscan
        obtain ⟨hst, hrep⟩ := hscan
        subst hst hrep
        refine ⟨fun hm => ?_, fun hm => ?_, cache_eq, list_imp⟩
        · exact absurd (c_iff.mp hm) (by simp)
        · exact absurd (r_iff.mp hm) (by simp)

/-- Witness for C9 at a concrete input: one monitored path whose stat
always fails; the scan succeeds, reports nothing, and leaves the state
alone. -/
theorem c9_stat_error_skips_file_witness :
    scan_files_for_changes '/' (some '\\') (fun _ => FileStatus.statError)
      ⟨["p"], [], "d/x.cache", none, []⟩ =
      .ok (⟨["p"], [], "d/x.cache", none, []⟩, ⟨[], [], none⟩) ∧
    ("p" ∉ (ScanReport.mk [] [] none).changed_files ∧
     "p" ∉ (ScanReport.mk [] [] none).removed_files ∧
     dict_get [] "p" = dict_get [] "p" ∧
     ("p" ∈ ["p"] → "p" ∈ ["p"])) := by
  have hscan : scan_files_for_changes '/' (some '\\') (fun _ => FileStatus.statError)
      ⟨["p"], [], "d/x.cache", none, []⟩ =
      .ok (⟨["p"], [], "d/x.cache", none, []⟩, ⟨[], [], none⟩) := by
    simp [scan_files_for_changes, scan_loop]
  exact ⟨hscan,
    c9_stat_error_skips_file.2 '/' (some '\\') (fun _ => FileStatus.statError) "p"
      ⟨["p"], [], "d/x.cache", none, []⟩ ⟨["p"], [], "d/x.cache", none, []⟩
      ⟨[], [], none⟩ rfl hscan⟩

/-- On a platform where `os.altsep` is a character, removing the last
part of a path once succeeds, and `persist_file_path` succeeds, adding
that parent directory to the directory list if it is not yet there. -/
theorem persist_file_path_some (sep a : Char) (dirs : List String) (p : String) :
    ∃ parent, remove_last_part_of_path sep (some a) p 1 = .ok parent ∧
      persist_file_path sep (some a) dirs p true =
        .ok (if parent ∈ dirs then dirs else dirs ++ [parent]) := by
  refine ⟨String.mk (if max (rfindChar p.data sep) (rfindChar p.data a) ≠ -1 then
      p.data.take (max (rfindChar p.data sep) (rfindChar p.data a)).toNat else []),
    rfl, rfl⟩

/-- C3 (corrected): on a platform where `os.altsep` is a character
(e.g. Windows), a scan persists the cache exactly when it found at
least one changed or removed file; persisting ensures the parent
directory of the cache path is present (creating it if needed) and
overwrites the cache file with the serialization of the full updated
mapping, and the callback fires under exactly the same condition. On
POSIX, where `os.altsep` is `None`, every persist instead raises
`TypeError` from `str.rfind(None)`: see the counterexample theorem. -/
theorem c3_persist_exactly_on_changes (sep a : Char) (fs : String → FileStatus)
    (st st' : MonitorState) (rep : ScanReport)
    (hscan : scan_files_for_changes sep (some a) fs st = .ok (st', rep)) :
    (rep.changed_files.length + rep.removed_files.length > 0 →
       st'.cache_file_content = some (jsonDumps (.jobj st'.file_cache)) ∧
       (∃ parent, remove_last_part_of_path sep (some a) st.metadata_cache_path 1 =
          .ok parent ∧ parent ∈ st'.dirs) ∧
       rep.callback = some (rep.changed_files, st'.file_list)) ∧
    (rep.changed_files.length + rep.removed_files.length = 0 →
       st'.cache_file_content = st.cache_file_content ∧ st'.dirs = st.dirs ∧
       rep.callback = none) := by
  unfold scan_files_for_changes at hscan
  cases hloop : scan_loop fs 0 ⟨st.file_list, st.file_cache, [], []⟩ with
  | error e => rw [hloop] at hscan; simp at hscan
  | ok r =>
    rw [hloop] at hscan
    dsimp only at hscan
    by_cases hch : r.changed_files.length > 0 ∨ r.removed_files.length > 0
    · rw [if_pos hch] at hscan
      obtain ⟨parent, hrm, hpp⟩ :=
        persist_file_path_some sep a st.dirs st.metadata_cache_path
      rw [hpp] at hscan
      dsimp only at hscan
      simp only [Except.ok.injEq, Prod.mk.injEq] at hscan
      obtain ⟨hst, hrep⟩ := hscan
      subst hst hrep
      constructor
      · intro _
        refine ⟨rfl, ⟨parent, hrm, ?_⟩, rfl⟩
        by_cases hm : parent ∈ st.dirs <;> simp [hm]
      · intro hz
        dsimp only at hz
        exact absurd hz (by omega)
    · rw [if_neg hch] at hscan
      simp only [Except.ok.injEq, Prod.mk.injEq] at hscan
      obtain ⟨hst, hrep⟩ := hscan
      subst hst hrep
      constructor
      · intro hpos
        dsimp only at hpos
        exact absurd hpos (by omega)
      · intro _
        exact ⟨rfl, rfl, rfl⟩

/-- C3 counterexample (POSIX): with `os.altsep = None`,
`remove_last_part_of_path` raises `TypeError` from `str.rfind(None)`,
so `persist_file_path` raises on every call, and a scan that found a
change raises out of `__scan_files_for_changes` instead of persisting
"without raising" as the claim states. -/
theorem c3_posix_persist_raises_typeerror :
    remove_last_part_of_path '/' none "d/x.cache" 1 = .error .typeError ∧
    persist_file_path '/' none [] "d/x.cache" true = .error .typeError ∧
    scan_files_for_changes '/' none (fun _ => FileStatus.regularFile 7)
      ⟨["q"], [], "d/x.cache", none, []⟩ = .error .typeError := by
  refine ⟨rfl, rfl, ?_⟩
  simp [scan_files_for_changes, scan_loop, dict_contains, dict_set,
    persist_file_path, remove_last_part_of_path, remove_last_part_loop,
    remove_last_part_once, rfindAltsep, Except.map]

/-- Witness for the corrected C3 at a concrete input: one uncached
regular file on a platform whose `os.altsep` is a character, so the
scan reports one change, persists, and fires the callback. -/
theorem c3_persist_exactly_on_changes_witness :
    scan_files_for_changes '/' (some '\\') (fun _ => FileStatus.regularFile 7)
      ⟨["q"], [], "d/x.cache", none, []⟩ =
      .ok (⟨["q"], [("q", .jint 7)], "d/x.cache",
            some (jsonDumps (.jobj [("q", .jint 7)])), ["d"]⟩,
           ⟨["q"], [], some (["q"], ["q"])⟩) ∧
    (((ScanReport.mk ["q"] [] (some (["q"], ["q"]))).changed_files.length +
      (ScanReport.mk ["q"] [] (some (["q"], ["q"]))).removed_files.length > 0 →
       (some (jsonDumps (.jobj [("q", JsonVal.jint 7)])) : Option String) =
         some (jsonDumps (.jobj [("q", .jint 7)])) ∧
       (∃ parent, remove_last_part_of_path '/' (some '\\') "d/x.cache" 1 =
          .ok parent ∧ parent ∈ ["d"]) ∧
       (some (["q"], ["q"]) : Option (List String × List String)) =
         some (["q"], ["q"])) ∧
     ((ScanReport.mk ["q"] [] (some (["q"], ["q"]))).changed_files.length +
      (ScanReport.mk ["q"] [] (some (["q"], ["q"]))).removed_files.length = 0 →
       (some (jsonDumps (.jobj [("q", JsonVal.jint 7)])) : Option String) = none ∧
       (["d"] : List String) = [] ∧
       (some (["q"], ["q"]) : Option (List String × List String)) = none)) := by
  have hscan : scan_files_for_changes '/' (some '\\') (fun _ => FileStatus.regularFile 7)
      ⟨["q"], [], "d/x.cache", none, []⟩ =
      .ok (⟨["q"], [("q", .jint 7)], "d/x.cache",
            some (jsonDumps (.jobj [("q", .jint 7)])), ["d"]⟩,
           ⟨["q"], [], some (["q"], ["q"])⟩) := by
    simp [scan_files_for_changes, scan_loop, dict_contains, dict_set,
      persist_file_path, remove_last_part_of_path, remove_last_part_loop,
      remove_last_part_once, rfindAltsep, rfindChar, Except.map]
  exact ⟨hscan,
    c3_persist_exactly_on_changes '/' '\\' (fun _ => FileStatus.regularFile 7)
      ⟨["q"], [], "d/x.cache", none, []⟩
      ⟨["q"], [("q", .jint 7)], "d/x.cache",
        some (jsonDumps (.jobj [("q", .jint 7)])), ["d"]⟩
      ⟨["q"], [], some (["q"], ["q"])⟩ hscan⟩

/-- C4: loading the cache returns an empty mapping when the fresh-start
flag is set or the file does not exist; undecodable content and decoded
content that is not a mapping are both caught, logged as an error and
replaced by an empty mapping; a decoded mapping is returned as is. The
load block catches every error its parsing can raise. -/
theorem c4_load_cache_never_raises (b : Bool) (s : String)
    (d : List (String × JsonVal)) (v : JsonVal) :
    load_file_cache true (some s) = ([], false) ∧
    load_file_cache b none = ([], false) ∧
    (jsonLoads s = none → load_file_cache false (some s) = ([], true)) ∧
    (jsonLoads s = some (.jobj d) → load_file_cache false (some s) = (d, false)) ∧
    (jsonLoads s = some v → (∀ d2, v ≠ .jobj d2) →
      load_file_cache false (some s) = ([], true)) := by
  refine ⟨by simp [load_file_cache], by cases b <;> simp [load_file_cache], ?_, ?_, ?_⟩
  · intro h; simp [load_file_cache, h]
  · intro h; simp [load_file_cache, h]
  · intro h hnd
    cases v with
    | jobj d2 => exact absurd rfl (hnd d2)
    | jnull => simp [load_file_cache, h]
    | jbool bb => simp [load_file_cache, h]
    | jint n => simp [load_file_cache, h]
    | jstr ss => simp [load_file_cache, h]

/-- Witness for C4 at concrete inputs, including undecodable content. -/
theorem c4_load_cache_never_raises_witness :
    load_file_cache true (some "nope") = ([], false) ∧
    load_file_cache false none = ([], false) ∧
    load_file_cache false (some "nope") = ([], true) :=
  ⟨(c4_load_cache_never_raises false "nope" [] .jnull).1,
   (c4_load_cache_never_raises false "nope" [] .jnull).2.1,
   (c4_load_cache_never_raises false "nope" [] .jnull).2.2.1 (by rfl)⟩

/-- C10: the loader checks only that the decoded value is a mapping, so
a mapping with a non-numeric string value is accepted; the first scan of
that path then raises the `int()` conversion error out of the scan. -/
theorem c10_non_numeric_cache_value (fs : String → FileStatus) (t : Int)
    (hfs : fs "p" = .regularFile t) :
    load_file_cache false (some "\x7b\"p\": \"abc\"\x7d") =
      ([("p", .jstr "abc")], false) ∧
    scan_files_for_changes '/' (some '\\') fs
      ⟨["p"], [("p", .jstr "abc")], "d/x.cache", none, []⟩ =
      .error (.valueError "p") := by
  constructor
  · rfl
  · simp [scan_files_for_changes, scan_loop, hfs, dict_contains, dict_get, pyInt,
      pyIntOfString, isPyWs, isDigitChar]

/-- Witness for C10 at a concrete filesystem. -/
theorem c10_non_numeric_cache_value_witness :
    load_file_cache false (some "\x7b\"p\": \"abc\"\x7d") =
      ([("p", .jstr "abc")], false) ∧
    scan_files_for_changes '/' (some '\\') (fun _ => FileStatus.regularFile 3)
      ⟨["p"], [("p", .jstr "abc")], "d/x.cache", none, []⟩ =
      .error (.valueError "p") :=
  c10_non_numeric_cache_value (fun _ => FileStatus.regularFile 3) 3 rfl

/-! ## Queue lemmas and C6 -/

theorem put_queue_sorted (q : FileMonitorActionQueue) (a : FileMonitorAction) :
    ((q.put a).queue).Sorted actionLe :=
  List.sorted_insertionSort actionLe _

theorem put_queue_perm (q : FileMonitorActionQueue) (a : FileMonitorAction) :
    ((q.put a).queue).Perm (q.queue ++ [a]) :=
  List.perm_insertionSort actionLe _

theorem foldl_put_perm :
    ∀ (l : List FileMonitorAction) (q : FileMonitorActionQueue),
      ((List.foldl FileMonitorActionQueue.put q l).queue).Perm (q.queue ++ l) := by
  intro l
  induction l with
  | nil => intro q; simp
  | cons x xs ih =>
    intro q
    have h1 := ih (q.put x)
    have h2 : ((q.put x).queue ++ xs).Perm ((q.queue ++ [x]) ++ xs) :=
      (put_queue_perm q x).append_right xs
    simpa using (h1.trans h2)

theorem foldl_put_sorted :
    ∀ (l : List FileMonitorAction) (q : FileMonitorActionQueue),
      q.queue.Sorted actionLe →
      ((List.foldl FileMonitorActionQueue.put q l).queue).Sorted actionLe := by
  intro l
  induction l with
  | nil => intro q hq; simpa using hq
  | cons x xs ih =>
    intro q _
    exact ih (q.put x) (put_queue_sorted q x)

/-- C6: `put` keeps the queue sorted ascending by due-time, `get` on an
empty queue signals emptiness, `get` on a sorted queue removes and
returns its earliest-due action, and three actions with due-times
`t1 < t2 < t3` inserted in any order come back out in ascending order
through three successive `get` calls. -/
theorem c6_queue_ordering (q : FileMonitorActionQueue)
    (action a1 a2 a3 : FileMonitorAction) (l : List FileMonitorAction) :
    ((q.put action).queue).Sorted actionLe ∧
    (FileMonitorActionQueue.mk []).get = (none, ⟨[]⟩) ∧
    (q.queue.Sorted actionLe → ∀ a rest, q.queue = a :: rest →
      q.get = (some a, ⟨rest⟩) ∧ ∀ b ∈ q.queue, actionLe a b) ∧
    (l.Perm [a1, a2, a3] →
     a1.action_time < a2.action_time → a2.action_time < a3.action_time →
      ∃ r1 r2 r3 : FileMonitorActionQueue,
        (List.foldl FileMonitorActionQueue.put ⟨[]⟩ l).get = (some a1, r1) ∧
        r1.get = (some a2, r2) ∧ r2.get = (some a3, r3) ∧
        r3.get = (none, r3)) := by
  refine ⟨put_queue_sorted q action, rfl, ?_, ?_⟩
  · intro hs a rest hq
    constructor
    · simp [FileMonitorActionQueue.get, hq]
    · intro b hb
      rw [hq] at hb hs
      rcases List.mem_cons.mp hb with hba | hbr
      · exact hba ▸ le_refl a.action_time
      · exact List.rel_of_sorted_cons hs b hbr
  · intro hperm h12 h23
    set Q := List.foldl FileMonitorActionQueue.put ⟨[]⟩ l with hQ
    have hqperm : Q.queue.Perm [a1, a2, a3] := by
      have := foldl_put_perm l ⟨[]⟩
      simpa using this.trans hperm
    have hqsorted : Q.queue.Sorted actionLe :=
      foldl_put_sorted l ⟨[]⟩ (by simp)
    have hmperm : (Q.queue.map FileMonitorAction.action_time).Perm
        [a1.action_time, a2.action_time, a3.action_time] := by
      simpa using hqperm.map FileMonitorAction.action_time
    have hmsorted : (Q.queue.map FileMonitorAction.action_time).Sorted (· ≤ ·) := by
      rw [List.Sorted, List.pairwise_map]
      exact hqsorted
    have htsorted : ([a1.action_time, a2.action_time, a3.action_time]).Sorted (· ≤ ·) := by
      simp [List.sorted_cons]
      exact ⟨⟨le_of_lt h12, le_of_lt (lt_trans h12 h23)⟩, le_of_lt h23⟩
    have hmap : Q.queue.map FileMonitorAction.action_time =
        [a1.action_time, a2.action_time, a3.action_time] :=
      List.eq_of_perm_of_sorted hmperm hmsorted htsorted
    rcases hq : Q.queue with _ | ⟨x, _ | ⟨y, _ | ⟨z, _ | ⟨w, tl⟩⟩⟩⟩ <;>
      rw [hq] at hmap <;> simp at hmap
    obtain ⟨hx, hy, hz⟩ := hmap
    have hmem : ∀ b, b ∈ Q.queue → b = a1 ∨ b = a2 ∨ b = a3 := by
      intro b hb
      have := hqperm.mem_iff.mp hb
      simpa using this
    have hxa : x = a1 := by
      rcases hmem x (by rw [hq]; simp) with h | h | h
      · exact h
      · rw [h] at hx; omega
      · rw [h] at hx; omega
    have hya : y = a2 := by
      rcases hmem y (by rw [hq]; simp) with h | h | h
      · rw [h] at hy; omega
      · exact h
      · rw [h] at hy; omega
    have hza : z = a3 := by
      rcases hmem z (by rw [hq]; simp) with h | h | h
      · rw [h] at hz; omega
      · rw [h] at hz; omega
      · exact h
    rw [hxa, hya, hza] at hq
    exact ⟨⟨[a2, a3]⟩, ⟨[a3]⟩, ⟨[]⟩,
      by simp [FileMonitorActionQueue.get, hq],
      by simp [FileMonitorActionQueue.get],
      by simp [FileMonitorActionQueue.get],
      by simp [FileMonitorActionQueue.get]⟩

/-- Witness for C6: three actions with times `1 < 2 < 3` inserted in the
order `2, 3, 1` come back out as `1, 2, 3`. -/
theorem c6_queue_ordering_witness :
    ∃ r1 r2 r3 : FileMonitorActionQueue,
      (List.foldl FileMonitorActionQueue.put ⟨[]⟩
        [⟨.SCAN_FILES_FOR_CHANGES, 2⟩, ⟨.SEARCH_FOR_NEW_FILES, 3⟩,
         ⟨.SEARCH_FOR_NEW_FILES, 1⟩]).get =
        (some ⟨.SEARCH_FOR_NEW_FILES, 1⟩, r1) ∧
      r1.get = (some ⟨.SCAN_FILES_FOR_CHANGES, 2⟩, r2) ∧
      r2.get = (some ⟨.SEARCH_FOR_NEW_FILES, 3⟩, r3) ∧
      r3.get = (none, r3) :=
  (c6_queue_ordering ⟨[]⟩ ⟨.SEARCH_FOR_NEW_FILES, 1⟩ ⟨.SEARCH_FOR_NEW_FILES, 1⟩
    ⟨.SCAN_FILES_FOR_CHANGES, 2⟩ ⟨.SEARCH_FOR_NEW_FILES, 3⟩
    [⟨.SCAN_FILES_FOR_CHANGES, 2⟩, ⟨.SEARCH_FOR_NEW_FILES, 3⟩,
     ⟨.SEARCH_FOR_NEW_FILES, 1⟩]).2.2.2 (by decide) (by decide) (by decide)

/-! ## Scheduler lemmas and C7 -/

theorem queue_new_action_search_on_empty (nfsf fusf now : Int) (hf : 0 < nfsf) :
    (queue_new_action nfsf fusf now .SEARCH_FOR_NEW_FILES ⟨[]⟩).queue =
      [⟨.SEARCH_FOR_NEW_FILES, now + NANO_SECS_IN_HOUR.fdiv nfsf⟩] := by
  simp [queue_new_action, hf, FileMonitorActionQueue.put, List.insertionSort,
    List.orderedInsert]

theorem queue_new_action_scan_on_empty (nfsf fusf now : Int) (hf : 0 < fusf) :
    (queue_new_action nfsf fusf now .SCAN_FILES_FOR_CHANGES ⟨[]⟩).queue =
      [⟨.SCAN_FILES_FOR_CHANGES, now + NANO_SECS_IN_HOUR.fdiv fusf⟩] := by
  simp [queue_new_action, hf, FileMonitorActionQueue.put, List.insertionSort,
    List.orderedInsert]

theorem monitor_run_search_only (nfsf : Int) (hf : 0 < nfsf) :
    ∀ (nows : List Int) (q : FileMonitorActionQueue),
      (∀ a ∈ q.queue, a.action_type = .SEARCH_FOR_NEW_FILES) →
      q.queue.length = 1 →
      ∃ qf, monitor_run nfsf 0 nows q =
              some (List.replicate nows.length .SEARCH_FOR_NEW_FILES, qf) ∧
            (∀ a ∈ qf.queue, a.action_type = .SEARCH_FOR_NEW_FILES) ∧
            qf.queue.length = 1 := by
  intro nows
  induction nows with
  | nil => intro q hk hl; exact ⟨q, rfl, hk, hl⟩
  | cons now rest ih =>
    intro q hk hl
    rcases hq : q.queue with _ | ⟨a, tl⟩
    · rw [hq] at hl; simp at hl
    · have htl : tl = [] := by rw [hq] at hl; simpa using hl
      subst htl
      have ha : a.action_type = .SEARCH_FOR_NEW_FILES := hk a (by rw [hq]; simp)
      have hstep : monitor_step nfsf 0 now q =
          some (.SEARCH_FOR_NEW_FILES,
                queue_new_action nfsf 0 now .SEARCH_FOR_NEW_FILES ⟨[]⟩) := by
        simp [monitor_step, FileMonitorActionQueue.get, hq, ha]
      have hqn := queue_new_action_search_on_empty nfsf 0 now hf
      obtain ⟨qf, hrun, hkf, hlf⟩ :=
        ih (queue_new_action nfsf 0 now .SEARCH_FOR_NEW_FILES ⟨[]⟩)
          (by intro b hb; rw [hqn] at hb; simpa using congrArg FileMonitorAction.action_type
                (List.mem_singleton.mp hb))
          (by rw [hqn]; rfl)
      refine ⟨qf, ?_, hkf, hlf⟩
      simp [monitor_run, hstep, hrun, List.replicate_succ]

theorem monitor_run_scan_only (fusf : Int) (hf : 0 < fusf) :
    ∀ (nows : List Int) (q : FileMonitorActionQueue),
      (∀ a ∈ q.queue, a.action_type = .SCAN_FILES_FOR_CHANGES) →
      q.queue.length = 1 →
      ∃ qf, monitor_run 0 fusf nows q =
              some (List.replicate nows.length .SCAN_FILES_FOR_CHANGES, qf) ∧
            (∀ a ∈ qf.queue, a.action_type = .SCAN_FILES_FOR_CHANGES) ∧
            qf.queue.length = 1 := by
  intro nows
  induction nows with
  | nil => intro q hk hl; exact ⟨q, rfl, hk, hl⟩
  | cons now rest ih =>
    intro q hk hl
    rcases hq : q.queue with _ | ⟨a, tl⟩
    · rw [hq] at hl; simp at hl
    · have htl : tl = [] := by rw [hq] at hl; simpa using hl
      subst htl
      have ha : a.action_type = .SCAN_FILES_FOR_CHANGES := hk a (by rw [hq]; simp)
      have hstep : monitor_step 0 fusf now q =
          some (.SCAN_FILES_FOR_CHANGES,
                queue_new_action 0 fusf now .SCAN_FILES_FOR_CHANGES ⟨[]⟩) := by
        simp [monitor_step, FileMonitorActionQueue.get, hq, ha]
      have hqn := queue_new_action_scan_on_empty 0 fusf now hf
      obtain ⟨qf, hrun, hkf, hlf⟩ :=
        ih (queue_new_action 0 fusf now .SCAN_FILES_FOR_CHANGES ⟨[]⟩)
          (by intro b hb; rw [hqn] at hb; simpa using congrArg FileMonitorAction.action_type
                (List.mem_singleton.mp hb))
          (by rw [hqn]; rfl)
      refine ⟨qf, ?_, hkf, hlf⟩
      simp [monitor_run, hstep, hrun, List.replicate_succ]

/-- C7: a task whose configured frequency is exactly zero is never
scheduled. With `file_update_scan_frequency = 0`, seeding enqueues no
scan action and every loop iteration dispatches a search action and
re-enqueues only search actions; symmetrically with
`new_files_search_frequency = 0`. -/
theorem c7_zero_frequency_never_scheduled (nfsf fusf n1 n2 : Int) (nows : List Int) :
    (0 < nfsf →
      (∀ a ∈ (init_action_queue nfsf 0 n1 n2).queue,
        a.action_type = .SEARCH_FOR_NEW_FILES) ∧
      ∃ kinds qf,
        monitor_run nfsf 0 nows (init_action_queue nfsf 0 n1 n2) = some (kinds, qf) ∧
        kinds = List.replicate nows.length .SEARCH_FOR_NEW_FILES ∧
        .SCAN_FILES_FOR_CHANGES ∉ kinds ∧
        (∀ a ∈ qf.queue, a.action_type = .SEARCH_FOR_NEW_FILES)) ∧
    (0 < fusf →
      (∀ a ∈ (init_action_queue 0 fusf n1 n2).queue,
        a.action_type = .SCAN_FILES_FOR_CHANGES) ∧
      ∃ kinds qf,
        monitor_run 0 fusf nows (init_action_queue 0 fusf n1 n2) = some (kinds, qf) ∧
        kinds = List.replicate nows.length .SCAN_FILES_FOR_CHANGES ∧
        .SEARCH_FOR_NEW_FILES ∉ kinds ∧
        (∀ a ∈ qf.queue, a.action_type = .SCAN_FILES_FOR_CHANGES)) := by
  constructor
  · intro hf
    have hinit : (init_action_queue nfsf 0 n1 n2).queue =
        [⟨.SEARCH_FOR_NEW_FILES, n2 + NANO_SECS_IN_HOUR.fdiv nfsf⟩] := by
      simp [init_action_queue, queue_new_action, hf, FileMonitorActionQueue.put,
        List.insertionSort, List.orderedInsert]
    have hmem : ∀ a ∈ (init_action_queue nfsf 0 n1 n2).queue,
        a.action_type = .SEARCH_FOR_NEW_FILES := by
      intro a ha
      rw [hinit] at ha
      simpa using congrArg FileMonitorAction.action_type (List.mem_singleton.mp ha)
    obtain ⟨qf, hrun, hkf, _⟩ :=
      monitor_run_search_only nfsf hf nows (init_action_queue nfsf 0 n1 n2) hmem
        (by rw [hinit]; rfl)
    refine ⟨hmem, List.replicate nows.length .SEARCH_FOR_NEW_FILES, qf, hrun, rfl, ?_, hkf⟩
    intro hmem2
    have := List.eq_of_mem_replicate hmem2
    exact absurd this (by simp)
  · intro hf
    have hinit : (init_action_queue 0 fusf n1 n2).queue =
        [⟨.SCAN_FILES_FOR_CHANGES, n1 + NANO_SECS_IN_HOUR.fdiv fusf⟩] := by
      simp [init_action_queue, queue_new_action, hf, FileMonitorActionQueue.put,
        List.insertionSort, List.orderedInsert]
    have hmem : ∀ a ∈ (init_action_queue 0 fusf n1 n2).queue,
        a.action_type = .SCAN_FILES_FOR_CHANGES := by
      intro a ha
      rw [hinit] at ha
      simpa using congrArg FileMonitorAction.action_type (List.mem_singleton.mp ha)
    obtain ⟨qf, hrun, hkf, _⟩ :=
      monitor_run_scan_only fusf hf nows (init_action_queue 0 fusf n1 n2) hmem
        (by rw [hinit]; rfl)
    refine ⟨hmem, List.replicate nows.length .SCAN_FILES_FOR_CHANGES, qf, hrun, rfl, ?_, hkf⟩
    intro hmem2
    have := List.eq_of_mem_replicate hmem2
    exact absurd this (by simp)

/-- Witness for C7 at concrete frequencies and clock readings. -/
theorem c7_zero_frequency_never_scheduled_witness :
    ((∀ a ∈ (init_action_queue 2 0 10 11).queue,
        a.action_type = FileMonitorActionType.SEARCH_FOR_NEW_FILES) ∧
     ∃ kinds qf,
        monitor_run 2 0 [20, 21] (init_action_queue 2 0 10 11) = some (kinds, qf) ∧
        kinds = List.replicate 2 .SEARCH_FOR_NEW_FILES ∧
        FileMonitorActionType.SCAN_FILES_FOR_CHANGES ∉ kinds ∧
        (∀ a ∈ qf.queue, a.action_type = .SEARCH_FOR_NEW_FILES)) ∧
    ((∀ a ∈ (init_action_queue 0 3 10 11).queue,
        a.action_type = FileMonitorActionType.SCAN_FILES_FOR_CHANGES) ∧
     ∃ kinds qf,
        monitor_run 0 3 [20, 21] (init_action_queue 0 3 10 11) = some (kinds, qf) ∧
        kinds = List.replicate 2 .SCAN_FILES_FOR_CHANGES ∧
        FileMonitorActionType.SEARCH_FOR_NEW_FILES ∉ kinds ∧
        (∀ a ∈ qf.queue, a.action_type = .SCAN_FILES_FOR_CHANGES)) :=
  ⟨(c7_zero_frequency_never_scheduled 2 3 10 11 [20, 21]).1 (by decide),
   (c7_zero_frequency_never_scheduled 2 3 10 11 [20, 21]).2 (by decide)⟩

/-! ## Character-level lemmas for the serialization round trip -/

theorem char_toNat_ofNat (n : Nat) (h : n.isValidChar) : (Char.ofNat n).toNat = n := by
  simp [Char.ofNat, h, Char.ofNatAux, Char.toNat, UInt32.toNat, BitVec.toNat_ofNatLt]

theorem char_toNat_ofNat_small (n : Nat) (h : n < 55296) : (Char.ofNat n).toNat = n :=
  char_toNat_ofNat n (Or.inl h)

theorem string_mk_data (s : String) : String.mk s.data = s := by
  cases s; rfl

theorem hexVal_hexDigitChar (d : Nat) (h : d < 16) :
    hexVal (hexDigitChar d) = some d := by
  interval_cases d <;> rfl

theorem skipWs_cons_not_ws (c : Char) (l : List Char) (h : isPyWs c = false) :
    skipWs (c :: l) = c :: l := by
  simp [skipWs, h]

theorem digitChar_toNat (d : Nat) (h : d < 10) : (digitChar d).toNat = 48 + d :=
  char_toNat_ofNat_small (48 + d) (by omega)

theorem isDigitChar_digitChar (d : Nat) (h : d < 10) :
    isDigitChar (digitChar d) = true := by
  simp [isDigitChar, digitChar_toNat d h]
  omega

theorem char_valid_toNat (c : Char) :
    c.toNat < 55296 ∨ (57343 < c.toNat ∧ c.toNat < 1114112) := c.valid

theorem readHex4_hex4 (n : Nat) (hn : n < 65536) (z : List Char) :
    readHex4 (hex4 n ++ z) = some (n, z) := by
  have e1 : hexVal (hexDigitChar (n / 4096 % 16)) = some (n / 4096 % 16) :=
    hexVal_hexDigitChar _ (Nat.mod_lt _ (by norm_num))
  have e2 : hexVal (hexDigitChar (n / 256 % 16)) = some (n / 256 % 16) :=
    hexVal_hexDigitChar _ (Nat.mod_lt _ (by norm_num))
  have e3 : hexVal (hexDigitChar (n / 16 % 16)) = some (n / 16 % 16) :=
    hexVal_hexDigitChar _ (Nat.mod_lt _ (by norm_num))
  have e4 : hexVal (hexDigitChar (n % 16)) = some (n % 16) :=
    hexVal_hexDigitChar _ (Nat.mod_lt _ (by norm_num))
  have harith : n / 4096 % 16 * 4096 + n / 256 % 16 * 256 + n / 16 % 16 * 16 + n % 16 = n := by
    omega
  simp only [hex4, List.cons_append, List.nil_append]
  simp only [readHex4]
  simp only [e1, e2, e3, e4]
  simp only [harith]

theorem parseUnicodeEscape_read (l : List Char) (n : Nat) (rest : List Char)
    (h : readHex4 l = some (n, rest)) :
    parseUnicodeEscape l = parseUnicodeHigh n rest := by
  rw [parseUnicodeEscape, h]

theorem parseUnicodeHigh_nonsurrogate (n : Nat) (hns : ¬(55296 ≤ n ∧ n ≤ 56319))
    (rest : List Char) :
    parseUnicodeHigh n rest = some (Char.ofNat n, rest) := by
  unfold parseUnicodeHigh
  rw [if_neg hns]

theorem parseUnicodeHigh_pair (n m : Nat) (hsur : 55296 ≤ n ∧ n ≤ 56319)
    (rest2 rest3 : List Char) (hr : readHex4 rest2 = some (m, rest3))
    (hlo : 56320 ≤ m ∧ m ≤ 57343) :
    parseUnicodeHigh n ('\\' :: 'u' :: rest2) =
      some (Char.ofNat (65536 + (n - 55296) * 1024 + (m - 56320)), rest3) := by
  unfold parseUnicodeHigh
  rw [if_pos hsur]
  show (if ('\\' : Char) = '\\' ∧ ('u' : Char) = 'u' then
          match readHex4 rest2 with
          | some (m, rest3) =>
            if 56320 ≤ m ∧ m ≤ 57343 then
              some (Char.ofNat (65536 + (n - 55296) * 1024 + (m - 56320)), rest3)
            else some (Char.ofNat n, '\\' :: 'u' :: rest2)
          | none => some (Char.ofNat n, '\\' :: 'u' :: rest2)
        else some (Char.ofNat n, '\\' :: 'u' :: rest2)) = _
  rw [if_pos ⟨rfl, rfl⟩, hr]
  show (if 56320 ≤ m ∧ m ≤ 57343 then
          some (Char.ofNat (65536 + (n - 55296) * 1024 + (m - 56320)), rest3)
        else some (Char.ofNat n, '\\' :: 'u' :: rest2)) = _
  rw [if_pos hlo]

theorem parseStringBody_unicode (w : List Char) (ch : Char) (w2 : List Char)
    (fuel : Nat) (h : parseUnicodeEscape w = some (ch, w2)) :
    parseStringBody (fuel + 1) ('\\' :: 'u' :: w) =
      consMap ch (parseStringBody fuel w2) := by
  have h0 : parseStringBody (fuel + 1) ('\\' :: 'u' :: w) =
      (match parseUnicodeEscape w with
       | some (ch2, rest3) => consMap ch2 (parseStringBody fuel rest3)
       | none => none) := rfl
  rw [h0, h]

theorem parseStringBody_literal (c : Char) (z : List Char) (fuel : Nat)
    (h1 : ¬ c = '"') (h2 : ¬ c = '\\') (h3 : ¬ c.toNat < 32) :
    parseStringBody (fuel + 1) (c :: z) = consMap c (parseStringBody fuel z) := by
  conv_lhs => rw [parseStringBody.eq_def]
  dsimp only
  rw [if_neg h1, if_neg h2, if_neg h3]

theorem parseStringBody_escapeChar (c : Char) (z : List Char) (fuel : Nat) :
    parseStringBody (fuel + 1) (escapeChar c ++ z) =
      consMap c (parseStringBody fuel z) := by
  have hv := char_valid_toNat c
  unfold escapeChar
  split_ifs with h1 h2 h3 h4 h5 h6 h7 h8 h9
  · subst h1; rfl
  · subst h2; rfl
  · subst h3; rfl
  · subst h4; rfl
  · subst h5; rfl
  · subst h6; rfl
  · subst h7; rfl
  · simp only [List.singleton_append]
    exact parseStringBody_literal c z fuel h1 h2 (by omega)
  · simp only [uEscape, List.cons_append]
    rw [parseStringBody_unicode (hex4 c.toNat ++ z) (Char.ofNat c.toNat) z fuel ?hbmp]
    case hbmp =>
      rw [parseUnicodeEscape_read _ c.toNat z (readHex4_hex4 c.toNat h9 z)]
      exact parseUnicodeHigh_nonsurrogate _ (by omega) z
    rw [Char.ofNat_toNat]
  · have hn1 : 65536 ≤ c.toNat := by omega
    have hn2 : c.toNat < 1114112 := by omega
    have hh : 55296 + (c.toNat - 65536) / 1024 < 65536 := by omega
    have hl : 56320 + (c.toNat - 65536) % 1024 < 65536 := by
      have := Nat.mod_lt (c.toNat - 65536) (show 0 < 1024 by norm_num)
      omega
    have hisur : 55296 ≤ 55296 + (c.toNat - 65536) / 1024 ∧
        55296 + (c.toNat - 65536) / 1024 ≤ 56319 := by omega
    have hlosur : 56320 ≤ 56320 + (c.toNat - 65536) % 1024 ∧
        56320 + (c.toNat - 65536) % 1024 ≤ 57343 := by
      have := Nat.mod_lt (c.toNat - 65536) (show 0 < 1024 by norm_num)
      omega
    have hcomb : 65536 + (55296 + (c.toNat - 65536) / 1024 - 55296) * 1024 +
        (56320 + (c.toNat - 65536) % 1024 - 56320) = c.toNat := by omega
    simp only [uEscape, List.cons_append, List.append_assoc]
    rw [parseStringBody_unicode
          (hex4 (55296 + (c.toNat - 65536) / 1024) ++
            '\\' :: 'u' :: (hex4 (56320 + (c.toNat - 65536) % 1024) ++ z))
          (Char.ofNat c.toNat) z fuel ?hpair]
    case hpair =>
      rw [parseUnicodeEscape_read _ (55296 + (c.toNat - 65536) / 1024)
            ('\\' :: 'u' :: (hex4 (56320 + (c.toNat - 65536) % 1024) ++ z))
            (readHex4_hex4 _ hh _)]
      rw [parseUnicodeHigh_pair _ (56320 + (c.toNat - 65536) % 1024) hisur
            _ z (readHex4_hex4 _ hl z) hlosur]
      rw [hcomb]
    rw [Char.ofNat_toNat]

theorem escapeChar_length_pos (c : Char) : 1 ≤ (escapeChar c).length := by
  unfold escapeChar
  split_ifs <;> simp [uEscape, hex4]

theorem length_le_flatMap_escapeChar (l : List Char) :
    l.length ≤ (l.flatMap escapeChar).length := by
  induction l with
  | nil => simp
  | cons c t ih =>
    simp only [List.flatMap_cons, List.length_append, List.length_cons]
    have := escapeChar_length_pos c
    omega

theorem parseStringBody_escape (l : List Char) :
    ∀ (fuel : Nat) (z : List Char), l.length + 1 ≤ fuel →
      parseStringBody fuel (l.flatMap escapeChar ++ '"' :: z) = some (l, z) := by
  induction l with
  | nil =>
    intro fuel z hf
    obtain ⟨f, rfl⟩ : ∃ f, fuel = f + 1 := ⟨fuel - 1, by omega⟩
    rfl
  | cons c t ih =>
    intro fuel z hf
    obtain ⟨f, rfl⟩ : ∃ f, fuel = f + 1 := ⟨fuel - 1, by omega⟩
    simp only [List.flatMap_cons, List.append_assoc]
    rw [parseStringBody_escapeChar c _ f]
    rw [ih f z (by simp at hf; omega)]
    rfl

theorem natChars_digits : ∀ (n : Nat), ∀ c ∈ natChars n, isDigitChar c = true := by
  intro n
  induction n using natChars.induct with
  | case1 n h =>
    intro c hc
    rw [natChars, if_pos h] at hc
    simp at hc
    subst hc
    exact isDigitChar_digitChar n h
  | case2 n h ih =>
    intro c hc
    rw [natChars, if_neg h] at hc
    rcases List.mem_append.mp hc with h1 | h1
    · exact ih c h1
    · simp at h1
      subst h1
      exact isDigitChar_digitChar _ (Nat.mod_lt _ (by norm_num))

theorem natChars_ne_nil (n : Nat) : natChars n ≠ [] := by
  induction n using natChars.induct with
  | case1 n h => rw [natChars, if_pos h]; simp
  | case2 n h ih => rw [natChars, if_neg h]; simp

theorem natChars_cons_digit (n : Nat) :
    ∃ d t, natChars n = digitChar d :: t ∧ d < 10 := by
  induction n using natChars.induct with
  | case1 n h => exact ⟨n, [], by rw [natChars, if_pos h], h⟩
  | case2 n h ih =>
    obtain ⟨d, t, hd, hlt⟩ := ih
    exact ⟨d, t ++ [digitChar (n % 10)], by rw [natChars, if_neg h, hd]; rfl, hlt⟩

theorem natChars_head_ne_zero : ∀ (n : Nat), n ≠ 0 →
    ∀ c t, natChars n = c :: t → c ≠ '0' := by
  intro n
  induction n using natChars.induct with
  | case1 n h =>
    intro hn c t hc
    rw [natChars, if_pos h] at hc
    injection hc with h1 h2
    subst h1
    intro he
    have h3 := congrArg Char.toNat he
    rw [digitChar_toNat n h] at h3
    have h0 : ('0' : Char).toNat = 48 := rfl
    rw [h0] at h3
    omega
  | case2 n h ih =>
    intro hn c t hc
    rw [natChars, if_neg h] at hc
    obtain ⟨d, t2, hd, hlt⟩ := natChars_cons_digit (n / 10)
    rw [hd, List.cons_append] at hc
    injection hc with h1 h2
    subst h1
    exact ih (by omega) _ _ hd

theorem takeDigits_append (ds z : List Char) (hds : ∀ c ∈ ds, isDigitChar c = true)
    (hz : ∀ c, z.head? = some c → isDigitChar c = false) :
    takeDigits (ds ++ z) = (ds, z) := by
  induction ds with
  | nil =>
    simp only [List.nil_append]
    cases z with
    | nil => rfl
    | cons c w =>
      rw [takeDigits]
      rw [hz c rfl]
      simp
  | cons d t ih =>
    rw [List.cons_append, takeDigits]
    rw [hds d (by simp)]
    rw [ih (fun c hc => hds c (by simp [hc]))]
    simp

theorem digitsVal_append (a b : List Char) (acc : Nat) :
    digitsVal (a ++ b) acc = digitsVal b (digitsVal a acc) := by
  induction a generalizing acc with
  | nil => rfl
  | cons c t ih => rw [List.cons_append, digitsVal, digitsVal, ih]

theorem digitsVal_natChars : ∀ (n : Nat) (acc : Nat),
    digitsVal (natChars n) acc = acc * 10 ^ (natChars n).length + n := by
  intro n
  induction n using natChars.induct with
  | case1 n h =>
    intro acc
    rw [natChars, if_pos h]
    simp only [digitsVal, List.length_cons, List.length_nil]
    rw [digitChar_toNat n h]
    simp [pow_one]
  | case2 n h ih =>
    intro acc
    rw [natChars, if_neg h]
    rw [digitsVal_append, List.length_append]
    rw [ih]
    simp only [digitsVal, List.length_cons, List.length_nil]
    rw [digitChar_toNat _ (Nat.mod_lt _ (by norm_num))]
    have h48 : 48 + n % 10 - 48 = n % 10 := by omega
    rw [h48]
    have hpow : 10 ^ ((natChars (n / 10)).length + (0 + 1)) =
        10 ^ (natChars (n / 10)).length * 10 := by
      rw [pow_add, pow_one]
    rw [hpow]
    have hring : (acc * 10 ^ (natChars (n / 10)).length + n / 10) * 10 =
        acc * (10 ^ (natChars (n / 10)).length * 10) + n / 10 * 10 := by ring
    rw [hring]
    omega

theorem natChars_no_leading_zero (n : Nat) :
    ¬((natChars n).head? = some '0' ∧ (natChars n).length > 1) := by
  rintro ⟨hh, hl⟩
  by_cases h : n < 10
  · rw [natChars, if_pos h] at hl
    simp at hl
  · obtain ⟨d, t, hd, hlt⟩ := natChars_cons_digit n
    rw [hd] at hh
    simp at hh
    exact natChars_head_ne_zero n (by omega) _ t hd hh

theorem parseIntToken_dumpInt (v : Int) (z : List Char)
    (hz : ∀ c, z.head? = some c → isDigitChar c = false) :
    parseIntToken (dumpInt v ++ z) = some (.jint v, z) := by
  by_cases hneg : v < 0
  · rw [dumpInt, if_pos hneg, List.cons_append]
    unfold parseIntToken
    dsimp only
    rw [if_pos rfl]
    rw [takeDigits_append _ _ (natChars_digits v.natAbs) hz]
    have hne := natChars_ne_nil v.natAbs
    cases hnc : natChars v.natAbs with
    | nil => exact absurd hnc hne
    | cons d t =>
      dsimp only
      rw [if_neg (by rw [← hnc]; exact natChars_no_leading_zero v.natAbs)]
      rw [← hnc, digitsVal_natChars]
      simp only [zero_mul, zero_add]
      have hval : -((v.natAbs : Nat) : Int) = v := by omega
      rw [if_pos trivial, hval]
  · rw [dumpInt, if_neg hneg]
    obtain ⟨d, t, hd, hlt⟩ := natChars_cons_digit v.toNat
    rw [hd, List.cons_append]
    unfold parseIntToken
    dsimp only
    rw [if_neg (by
      intro he
      have h3 := congrArg Char.toNat he
      rw [digitChar_toNat d hlt] at h3
      have h4 : ('-' : Char).toNat = 45 := rfl
      rw [h4] at h3
      omega)]
    rw [← List.cons_append, ← hd]
    rw [takeDigits_append _ _ (natChars_digits v.toNat) hz]
    have hne := natChars_ne_nil v.toNat
    cases hnc : natChars v.toNat with
    | nil => exact absurd hnc hne
    | cons d2 t2 =>
      dsimp only
      rw [if_neg (by rw [← hnc]; exact natChars_no_leading_zero v.toNat)]
      rw [← hnc, digitsVal_natChars]
      simp only [zero_mul, zero_add]
      have hval : ((v.toNat : Nat) : Int) = v := by omega
      simp [hval]

theorem digitChar_ne_of_toNat (d : Nat) (hlt : d < 10) (c : Char)
    (hc : c.toNat < 48 ∨ 57 < c.toNat) : digitChar d ≠ c := by
  intro he
  have h3 := congrArg Char.toNat he
  rw [digitChar_toNat d hlt] at h3
  omega

theorem isPyWs_digitChar (d : Nat) (hlt : d < 10) : isPyWs (digitChar d) = false := by
  simp only [isPyWs, decide_eq_false_iff_not]
  push_neg
  refine ⟨?_, ?_, ?_, ?_⟩ <;> exact digitChar_ne_of_toNat d hlt _ (by decide)

theorem parseValue_dumpInt (v : Int) (z : List Char) (fuel : Nat)
    (hz : ∀ c, z.head? = some c → isDigitChar c = false) :
    parseValue (fuel + 1) (dumpInt v ++ z) = some (.jint v, z) := by
  by_cases hneg : v < 0
  · have hl : dumpInt v ++ z = '-' :: (natChars v.natAbs ++ z) := by
      rw [dumpInt, if_pos hneg, List.cons_append]
    rw [hl]
    have h0 : parseValue (fuel + 1) ('-' :: (natChars v.natAbs ++ z)) =
        parseIntToken ('-' :: (natChars v.natAbs ++ z)) := rfl
    rw [h0, ← hl]
    exact parseIntToken_dumpInt v z hz
  · obtain ⟨d, t, hd, hlt⟩ := natChars_cons_digit v.toNat
    have hl : dumpInt v ++ z = digitChar d :: (t ++ z) := by
      rw [dumpInt, if_neg hneg, hd, List.cons_append]
    rw [hl]
    conv_lhs => rw [parseValue]
    rw [skipWs_cons_not_ws _ _ (isPyWs_digitChar d hlt)]
    dsimp only
    rw [if_neg (digitChar_ne_of_toNat d hlt _ (by decide)),
        if_neg (digitChar_ne_of_toNat d hlt _ (by decide)),
        if_neg (digitChar_ne_of_toNat d hlt _ (by decide)),
        if_neg (digitChar_ne_of_toNat d hlt _ (by decide)),
        if_neg (digitChar_ne_of_toNat d hlt _ (by decide))]
    rw [← hl]
    exact parseIntToken_dumpInt v z hz

theorem dict_set_append (d : List (String × JsonVal)) (k : String) (v : JsonVal)
    (h : dict_contains d k = false) : dict_set d k v = d ++ [(k, v)] := by
  induction d with
  | nil => rfl
  | cons kv rest ih =>
    simp only [dict_contains, List.any_cons, Bool.or_eq_false_iff,
      decide_eq_false_iff_not] at h
    rw [dict_set, if_neg h.1, ih h.2, List.cons_append]

theorem foldl_dict_set (ms : List (String × JsonVal)) :
    ∀ acc, (ms.map Prod.fst).Nodup →
      (∀ kv ∈ ms, dict_contains acc kv.1 = false) →
      ms.foldl (fun a kv => dict_set a kv.1 kv.2) acc = acc ++ ms := by
  induction ms with
  | nil => intro acc _ _; simp
  | cons kv rest ih =>
    intro acc hnd hc
    rw [List.foldl_cons, dict_set_append acc kv.1 kv.2 (hc kv (by simp))]
    have hnd2 : (rest.map Prod.fst).Nodup := by
      simp only [List.map_cons, List.nodup_cons] at hnd
      exact hnd.2
    have hk1 : kv.1 ∉ rest.map Prod.fst := by
      simp only [List.map_cons, List.nodup_cons] at hnd
      exact hnd.1
    have hc2 : ∀ kv2 ∈ rest, dict_contains (acc ++ [(kv.1, kv.2)]) kv2.1 = false := by
      intro kv2 h2
      simp only [dict_contains, List.any_append, Bool.or_eq_false_iff]
      constructor
      · exact hc kv2 (by simp [h2])
      · simp only [List.any_cons, List.any_nil, Bool.or_false,
          decide_eq_false_iff_not]
        intro he
        exact hk1 (by rw [he]; exact List.mem_map_of_mem Prod.fst h2)
    rw [ih (acc ++ [(kv.1, kv.2)]) hnd2 hc2]
    simp

theorem parseValue_cons_ws (c : Char) (w : List Char) (f : Nat)
    (h : isPyWs c = true) :
    parseValue (f + 1) (c :: w) = parseValue (f + 1) w := by
  conv_lhs => rw [parseValue]
  conv_rhs => rw [parseValue]
  rw [show skipWs (c :: w) = skipWs w from by rw [skipWs]; simp [h]]

theorem parsePairs_dumpMembers :
    ∀ (ms : List (String × JsonVal)) (f : Nat) (acc : List (String × JsonVal))
      (z : List Char),
      (∀ kv ∈ ms, ∃ n : Int, kv.2 = .jint n) →
      ms ≠ [] →
      2 * ms.length ≤ f →
      parsePairs f (dumpMembers ms ++ rbraceChar :: z) acc =
        some (.jobj (ms.foldl (fun a kv => dict_set a kv.1 kv.2) acc), z) := by
  intro ms
  induction ms with
  | nil => intro f acc z _ hne _; exact absurd rfl hne
  | cons kv rest ih =>
    intro f acc z hvals _ hf
    obtain ⟨f1, rfl⟩ : ∃ f1, f = f1 + 1 :=
      ⟨f - 1, by simp only [List.length_cons] at hf; omega⟩
    obtain ⟨n, hn⟩ := hvals kv (by simp)
    obtain ⟨f2, hf2⟩ : ∃ f2, f1 = f2 + 1 :=
      ⟨f1 - 1, by simp only [List.length_cons] at hf; omega⟩
    cases rest with
    | nil =>
      have hshape : dumpMembers [kv] ++ rbraceChar :: z =
          '"' :: (kv.1.data.flatMap escapeChar ++
            '"' :: (':' :: ' ' :: (dumpInt n ++ rbraceChar :: z))) := by
        rw [show dumpMembers [kv] = dumpString kv.1 ++ ':' :: ' ' :: dumpVal kv.2 from rfl,
            hn]
        rw [show dumpVal (.jint n) = dumpInt n from rfl]
        simp [dumpString, escapeString, List.append_assoc]
      rw [hshape]
      conv_lhs => rw [parsePairs]
      dsimp only
      rw [if_pos rfl]
      rw [parseStringBody_escape kv.1.data _ _ ?hb1]
      case hb1 =>
        simp only [List.length_append, List.length_cons]
        have := length_le_flatMap_escapeChar kv.1.data
        omega
      dsimp only
      rw [skipWs_cons_not_ws ':' _ rfl]
      dsimp only
      rw [if_pos rfl]
      rw [hf2]
      rw [parseValue_cons_ws ' ' _ f2 rfl]
      rw [parseValue_dumpInt n (rbraceChar :: z) f2 (by
        intro c hc
        simp at hc
        subst hc
        rfl)]
      dsimp only
      rw [skipWs_cons_not_ws rbraceChar _ rfl]
      dsimp only
      rw [if_neg (by decide), if_pos rfl]
      rw [string_mk_data]
      simp [hn]
    | cons kv2 t =>
      have hshape : dumpMembers (kv :: kv2 :: t) ++ rbraceChar :: z =
          '"' :: (kv.1.data.flatMap escapeChar ++
            '"' :: (':' :: ' ' :: (dumpInt n ++
              ',' :: ' ' :: (dumpMembers (kv2 :: t) ++ rbraceChar :: z)))) := by
        rw [show dumpMembers (kv :: kv2 :: t) =
              dumpString kv.1 ++ ':' :: ' ' :: dumpVal kv.2 ++
                ',' :: ' ' :: dumpMembers (kv2 :: t) from rfl, hn]
        rw [show dumpVal (.jint n) = dumpInt n from rfl]
        simp [dumpString, escapeString, List.append_assoc]
      rw [hshape]
      conv_lhs => rw [parsePairs]
      dsimp only
      rw [if_pos rfl]
      rw [parseStringBody_escape kv.1.data _ _ ?hb2]
      case hb2 =>
        simp only [List.length_append, List.length_cons]
        have := length_le_flatMap_escapeChar kv.1.data
        omega
      dsimp only
      rw [skipWs_cons_not_ws ':' _ rfl]
      dsimp only
      rw [if_pos rfl]
      rw [hf2]
      rw [parseValue_cons_ws ' ' _ f2 rfl]
      rw [parseValue_dumpInt n _ f2 (by
        intro c hc
        simp at hc
        subst hc
        rfl)]
      dsimp only
      rw [skipWs_cons_not_ws ',' _ rfl]
      dsimp only
      rw [if_pos rfl]
      have hsw : skipWs (' ' :: (dumpMembers (kv2 :: t) ++ rbraceChar :: z)) =
          dumpMembers (kv2 :: t) ++ rbraceChar :: z := by
        rw [skipWs]
        simp only [isPyWs, if_pos]
        rw [show dumpMembers (kv2 :: t) ++ rbraceChar :: z =
              '"' :: ((dumpString kv2.1).tail ++ ':' :: ' ' :: dumpVal kv2.2 ++
                (match t with
                 | [] => ([] : List Char)
                 | _ => ',' :: ' ' :: dumpMembers t) ++ rbraceChar :: z) from ?_]
        · exact skipWs_cons_not_ws '"' _ rfl
        · cases t <;> simp [dumpMembers, dumpString, List.append_assoc]
      rw [← hf2, hsw]
      rw [ih f1 _ z (fun kv3 h3 => hvals kv3 (by simp [h3])) (by simp) (by
        simp only [List.length_cons] at hf ⊢
        omega)]
      rw [string_mk_data]
      simp [hn]

theorem two_mul_length_le_dumpMembers :
    ∀ (ms : List (String × JsonVal)), 2 * ms.length ≤ (dumpMembers ms).length + 2 := by
  intro ms
  induction ms with
  | nil => simp
  | cons kv rest ih =>
    cases rest with
    | nil => simp
    | cons kv2 t =>
      rw [show dumpMembers (kv :: kv2 :: t) =
            dumpString kv.1 ++ ':' :: ' ' :: dumpVal kv.2 ++
              ',' :: ' ' :: dumpMembers (kv2 :: t) from rfl]
      simp only [List.length_append, List.length_cons] at ih ⊢
      omega

theorem jsonLoads_dump_jobj (m : List (String × JsonVal))
    (hkeys : (m.map Prod.fst).Nodup)
    (hvals : ∀ kv ∈ m, ∃ n : Int, kv.2 = .jint n) :
    jsonLoads (jsonDumps (.jobj m)) = some (.jobj m) := by
  rw [jsonLoads]
  rw [show (jsonDumps (.jobj m)).data = lbraceChar :: (dumpMembers m ++ [rbraceChar])
        from rfl]
  rw [show (lbraceChar :: (dumpMembers m ++ [rbraceChar])).length =
        ((dumpMembers m).length + 1) + 1 from by simp]
  conv_lhs => rw [parseValue]
  rw [skipWs_cons_not_ws lbraceChar _ rfl]
  dsimp only
  rw [if_neg (by decide), if_pos rfl]
  cases m with
  | nil => rfl
  | cons kv t =>
    rw [show dumpMembers (kv :: t) ++ [rbraceChar] =
          '"' :: ((dumpString kv.1).tail ++ ':' :: ' ' :: dumpVal kv.2 ++
            (match t with
             | [] => ([] : List Char)
             | _ => ',' :: ' ' :: dumpMembers t) ++ [rbraceChar]) from by
      cases t <;> simp [dumpMembers, dumpString, List.append_assoc]]
    rw [skipWs_cons_not_ws '"' _ rfl]
    dsimp only
    rw [if_neg (by decide)]
    rw [show ('"' : Char) :: ((dumpString kv.1).tail ++ ':' :: ' ' :: dumpVal kv.2 ++
          (match t with
           | [] => ([] : List Char)
           | _ => ',' :: ' ' :: dumpMembers t) ++ [rbraceChar]) =
          dumpMembers (kv :: t) ++ rbraceChar :: [] from by
      cases t <;> simp [dumpMembers, dumpString, List.append_assoc]]
    rw [parsePairs_dumpMembers (kv :: t) _ [] [] hvals (by simp) (by
      have := two_mul_length_le_dumpMembers (kv :: t)
      omega)]
    rw [foldl_dict_set (kv :: t) [] hkeys (fun kv2 _ => rfl)]
    rfl

/-- C5: persisting an in-memory cache whose values are integer
nanosecond timestamps (`json.dumps` of the dict, as the scan writes it)
and loading it back through the constructor's cache-reading block yields
the identical mapping: same keys in the same order, exactly the same
integer values, and no parse error. The key-uniqueness hypothesis is the
Python `dict` invariant. -/
theorem c5_cache_round_trip (m : List (String × JsonVal))
    (hkeys : (m.map Prod.fst).Nodup)
    (hvals : ∀ kv ∈ m, ∃ n : Int, kv.2 = .jint n) :
    load_file_cache false (some (jsonDumps (.jobj m))) = (m, false) := by
  unfold load_file_cache
  dsimp only
  rw [jsonLoads_dump_jobj m hkeys hvals]

/-- Witness for C5 at a concrete two-entry cache. -/
theorem c5_cache_round_trip_witness :
    load_file_cache false
      (some (jsonDumps (.jobj [("a", .jint 123), ("b", .jint 456)]))) =
      ([("a", .jint 123), ("b", .jint 456)], false) :=
  c5_cache_round_trip [("a", .jint 123), ("b", .jint 456)] (by decide)
    (by
      intro kv hkv
      rcases List.mem_cons.mp hkv with rfl | hkv2
      · exact ⟨123, rfl⟩
      · rcases List.mem_cons.mp hkv2 with rfl | hkv3
        · exact ⟨456, rfl⟩
        · cases hkv3)
